import Mathlib

/-!
Verification development for the stabilizer-simulation core of a
quantum-circuit library: the binary-tableau representation
(clifford_tableau.py), the CH-form representation
(stabilizer_state_ch_form.py) and the simulator driver
(clifford_simulator.py) are shallowly embedded below, and the claims
about them are settled as theorems at the end of the file.

Numbers: every amplitude produced by the CH form lies in the cyclotomic
field Q(zeta), zeta = exp(i*pi/4), so complex scalars are represented
exactly as quadruples of rationals (coordinates in the basis
1, zeta, zeta^2 = i, zeta^3), with zeta^4 = -1.  Floating point in the
source is thereby replaced by exact arithmetic.
-/

/-- The number (a + b*zeta + c*zeta^2 + d*zeta^3) / 2^e of Q(zeta),
zeta = exp(i*pi/4); zeta^2 = i and zeta^4 = -1.  This ring contains
1/sqrt 2 = (zeta - zeta^3)/2 and all powers of i, hence every scalar the
CH form ever produces.  The representation is not normalized (the same
number has many representations), so the decidable relation eqv below
expresses equality of the represented complex numbers. -/
structure Zeta8 where
  a : Int
  b : Int
  c : Int
  d : Int
  e : Nat
deriving DecidableEq, Repr

namespace Zeta8

def zero : Zeta8 := ⟨0, 0, 0, 0, 0⟩

def one : Zeta8 := ⟨1, 0, 0, 0, 0⟩

def add (x y : Zeta8) : Zeta8 :=
  let m := max x.e y.e
  ⟨x.a * 2 ^ (m - x.e) + y.a * 2 ^ (m - y.e),
   x.b * 2 ^ (m - x.e) + y.b * 2 ^ (m - y.e),
   x.c * 2 ^ (m - x.e) + y.c * 2 ^ (m - y.e),
   x.d * 2 ^ (m - x.e) + y.d * 2 ^ (m - y.e), m⟩

def neg (x : Zeta8) : Zeta8 := ⟨-x.a, -x.b, -x.c, -x.d, x.e⟩

/-- Negacyclic convolution: multiplication in Q[zeta] with zeta^4 = -1. -/
def mul (x y : Zeta8) : Zeta8 :=
  ⟨x.a * y.a - x.b * y.d - x.c * y.c - x.d * y.b,
   x.a * y.b + x.b * y.a - x.c * y.d - x.d * y.c,
   x.a * y.c + x.b * y.b + x.c * y.a - x.d * y.d,
   x.a * y.d + x.b * y.c + x.c * y.b + x.d * y.a,
   x.e + y.e⟩

/-- The two representations denote the same complex number
(cross-multiplied componentwise comparison). -/
def eqv (x y : Zeta8) : Prop :=
  x.a * 2 ^ y.e = y.a * 2 ^ x.e ∧ x.b * 2 ^ y.e = y.b * 2 ^ x.e ∧
  x.c * 2 ^ y.e = y.c * 2 ^ x.e ∧ x.d * 2 ^ y.e = y.d * 2 ^ x.e

instance (x y : Zeta8) : Decidable (eqv x y) := by
  unfold eqv; infer_instance

/-- The represented number is exactly 0. -/
def isZero (x : Zeta8) : Prop := x.a = 0 ∧ x.b = 0 ∧ x.c = 0 ∧ x.d = 0

instance (x : Zeta8) : Decidable (isZero x) := by
  unfold isZero; infer_instance

/-- The imaginary unit i = zeta^2. -/
def I : Zeta8 := ⟨0, 0, 1, 0, 0⟩

/-- The exact value 1/sqrt 2 = (zeta - zeta^3)/2. -/
def invSqrt2 : Zeta8 := ⟨0, 1, 0, -1, 1⟩

/-- i^k for a natural exponent (period 4). -/
def iPowNat (k : Nat) : Zeta8 :=
  match k % 4 with
  | 0 => one
  | 1 => I
  | 2 => neg one
  | _ => neg I

/-- i^k for an integer exponent, agreeing with Python's 1j**k. -/
def iPowInt (k : Int) : Zeta8 := iPowNat ((k % 4).toNat)

/-- (-1)^k for a natural exponent. -/
def negOnePow (k : Nat) : Zeta8 := if k % 2 = 0 then one else neg one

/-- x^k by iterated multiplication. -/
def pow (x : Zeta8) : Nat → Zeta8
  | 0 => one
  | k + 1 => mul x (pow x k)

end Zeta8

/-- Bool to Int cast (Python int(bool)). -/
def bti (b : Bool) : Int := if b then 1 else 0

/-- Number of indices k < n satisfying f (Python sum over a boolean
vector of length n). -/
def countB (n : Nat) (f : Nat → Bool) : Nat := ((List.range n).filter f).length

/-- Binary length with explicit fuel (first argument); the fuel s is
enough for the number s itself. -/
def bitLenAux : Nat → Nat → Nat
  | 0, _ => 0
  | fuel + 1, s => if s = 0 then 0 else bitLenAux fuel (s / 2) + 1

/-- The number of iterations of the source's bits(s) generator (the
binary length of s). -/
def bitLen (s : Nat) : Nat := bitLenAux s s

/-!
## Binary tableau (clifford_tableau.py, class CliffordTableau)

Rows 0..n-1 are destabilizers, n..2n-1 stabilizers, 2n is scratch.
Rows and columns are total functions; only rows 0..2n and columns
0..n-1 are meaningful, matching the (2n+1) x n numpy arrays.
-/

structure CliffordTableau where
  n : Nat
  rs : Nat → Bool
  xs : Nat → Nat → Bool
  zs : Nat → Nat → Bool

/-- CliffordTableau.__init__: identity generators of |0..0>, with the
sign bit of stabilizer row 2n-1-i set for each set bit i of
initial_state (most significant qubit first). -/
def tabInit (n initialState : Nat) : CliffordTableau where
  n := n
  rs := fun i => decide (i < 2 * n) && initialState.testBit (2 * n - 1 - i)
  xs := fun i j => decide (i < n) && decide (i = j)
  zs := fun i j => decide (j < n) && decide (i = n + j)

/-- CliffordTableau._X: rs ^= zs[:,q]. -/
def tabX (T : CliffordTableau) (q : Nat) : CliffordTableau :=
  { T with rs := fun i => T.rs i ^^ T.zs i q }

/-- CliffordTableau._Y: rs ^= xs[:,q] | zs[:,q] (as written in the
source; see the C1 analysis). -/
def tabY (T : CliffordTableau) (q : Nat) : CliffordTableau :=
  { T with rs := fun i => T.rs i ^^ (T.xs i q || T.zs i q) }

/-- CliffordTableau._Z: rs ^= xs[:,q]. -/
def tabZ (T : CliffordTableau) (q : Nat) : CliffordTableau :=
  { T with rs := fun i => T.rs i ^^ T.xs i q }

/-- CliffordTableau._S: rs ^= xs[:,q] & zs[:,q]; zs[:,q] ^= xs[:,q]. -/
def tabS (T : CliffordTableau) (q : Nat) : CliffordTableau :=
  { T with rs := fun i => T.rs i ^^ (T.xs i q && T.zs i q),
           zs := fun i j => if j = q then T.zs i j ^^ T.xs i j else T.zs i j }

/-- CliffordTableau._H: swap xs[:,q] and zs[:,q], then
rs ^= xs[:,q] & zs[:,q] with the post-swap values. -/
def tabH (T : CliffordTableau) (q : Nat) : CliffordTableau :=
  { T with xs := fun i j => if j = q then T.zs i j else T.xs i j,
           zs := fun i j => if j = q then T.xs i j else T.zs i j,
           rs := fun i => T.rs i ^^ (T.zs i q && T.xs i q) }

/-- CliffordTableau._CNOT: the sign update uses the pre-update columns,
then xs[:,q2] ^= xs[:,q1] and zs[:,q1] ^= zs[:,q2]. -/
def tabCNOT (T : CliffordTableau) (q1 q2 : Nat) : CliffordTableau :=
  { T with rs := fun i => T.rs i ^^ (T.xs i q1 && T.zs i q2 && !(T.xs i q2 ^^ T.zs i q1)),
           xs := fun i j => if j = q2 then T.xs i j ^^ T.xs i q1 else T.xs i j,
           zs := fun i j => if j = q1 then T.zs i j ^^ T.zs i q2 else T.zs i j }

/-- CliffordTableau._CZ: H(r); CNOT(q,r); H(r). -/
def tabCZ (T : CliffordTableau) (q r : Nat) : CliffordTableau :=
  tabH (tabCNOT (tabH T r) q r) r

/-- The function g of CliffordTableau._rowsum (exponent of i contributed
by one column); arguments in source order g(x1, z1, x2, z2). -/
def rowsumG (x1 z1 x2 z2 : Bool) : Int :=
  if !x1 && !z1 then 0
  else if x1 && z1 then bti z2 - bti x2
  else if x1 && !z1 then bti z2 * (2 * bti x2 - 1)
  else bti x2 * (1 - 2 * bti z2)

/-- The phase accumulator r of CliffordTableau._rowsum, already reduced
mod 4: 2*rs[q1] + 2*rs[q2] + sum over columns of
g(xs[q2,j], zs[q2,j], xs[q1,j], zs[q1,j]). -/
def rowsumPhase (T : CliffordTableau) (q1 q2 : Nat) : Int :=
  ((List.range T.n).foldl
    (fun r j => r + rowsumG (T.xs q2 j) (T.zs q2 j) (T.xs q1 j) (T.zs q1 j))
    (2 * bti (T.rs q1) + 2 * bti (T.rs q2))) % 4

/-- CliffordTableau._rowsum: multiply the generator in row q1 by the
generator in row q2, storing into row q1. -/
def tabRowsum (T : CliffordTableau) (q1 q2 : Nat) : CliffordTableau :=
  { T with rs := fun i => if i = q1 then decide (rowsumPhase T q1 q2 ≠ 0) else T.rs i,
           xs := fun i j => if i = q1 then T.xs i j ^^ T.xs q2 j else T.xs i j,
           zs := fun i j => if i = q1 then T.zs i j ^^ T.zs q2 j else T.zs i j }

/-- The scan at the top of CliffordTableau._measure: the first stabilizer
row p (n <= p < 2n) with xs[p,q] set, if any. -/
def firstStab (T : CliffordTableau) (q : Nat) : Option Nat :=
  (List.range' T.n T.n).find? (fun i => T.xs i q)

/-- Zero out the scratch row 2n (start of the commuting branch of
CliffordTableau._measure). -/
def zeroScratch (T : CliffordTableau) : CliffordTableau :=
  { T with rs := fun i => if i = 2 * T.n then false else T.rs i,
           xs := fun i j => if i = 2 * T.n then false else T.xs i j,
           zs := fun i j => if i = 2 * T.n then false else T.zs i j }

/-- One iteration of the commuting-branch loop of _measure: for
destabilizer row i with xs[i,q] set, multiply the scratch row 2n by the
paired stabilizer row n+i. -/
def measStepC (q : Nat) (S : CliffordTableau) (i : Nat) : CliffordTableau :=
  if S.xs i q = true then tabRowsum S (2 * S.n) (S.n + i) else S

/-- One iteration of the anticommuting-branch loop of _measure: every
row i other than p with xs[i,q] set is multiplied by row p. -/
def measStepA (q p : Nat) (S : CliffordTableau) (i : Nat) : CliffordTableau :=
  if i ≠ p ∧ S.xs i q = true then tabRowsum S i p else S

/-- CliffordTableau._measure, parameterized by the random bit r that the
source draws via np.random.randint(2) in the anticommuting branch (the
commuting branch consumes no randomness and ignores r).  Returns the
measured bit together with the updated tableau. -/
def tabMeasure (T : CliffordTableau) (q : Nat) (r : Bool) : Bool × CliffordTableau :=
  match firstStab T q with
  | none =>
      let T2 := (List.range T.n).foldl (measStepC q) (zeroScratch T)
      (T2.rs (2 * T2.n), T2)
  | some p =>
      let T1 := (List.range (2 * T.n)).foldl (measStepA q p) T
      let T2 := { T1 with
        rs := fun i => if i = p - T1.n then T1.rs p else T1.rs i,
        xs := fun i j => if i = p - T1.n then T1.xs p j else T1.xs i j,
        zs := fun i j => if i = p - T1.n then T1.zs p j else T1.zs i j }
      let T3 := { T2 with
        rs := fun i => if i = p then r else T2.rs i,
        xs := fun i j => if i = p then false else T2.xs i j,
        zs := fun i j => if i = p then decide (j = q) else T2.zs i j }
      (r, T3)

/-- The seven gate kinds the simulator supports, at tableau level. -/
inductive GateOp where
  | gX (q : Nat)
  | gY (q : Nat)
  | gZ (q : Nat)
  | gH (q : Nat)
  | gS (q : Nat)
  | gCNOT (q1 q2 : Nat)
  | gCZ (q1 q2 : Nat)
deriving DecidableEq, Repr

/-- Qubit indices in range, and distinct for the two-qubit gates (the
domain on which the numpy code runs without an index error and the
operation is a genuine Clifford gate). -/
def GateOp.valid (n : Nat) : GateOp → Prop
  | .gX q => q < n
  | .gY q => q < n
  | .gZ q => q < n
  | .gH q => q < n
  | .gS q => q < n
  | .gCNOT q1 q2 => q1 < n ∧ q2 < n ∧ q1 ≠ q2
  | .gCZ q1 q2 => q1 < n ∧ q2 < n ∧ q1 ≠ q2

instance (n : Nat) (g : GateOp) : Decidable (g.valid n) := by
  cases g <;> simp [GateOp.valid] <;> infer_instance

/-- Dispatch of a gate to the tableau update. -/
def applyGate (T : CliffordTableau) : GateOp → CliffordTableau
  | .gX q => tabX T q
  | .gY q => tabY T q
  | .gZ q => tabZ T q
  | .gH q => tabH T q
  | .gS q => tabS T q
  | .gCNOT q1 q2 => tabCNOT T q1 q2
  | .gCZ q1 q2 => tabCZ T q1 q2

/-- A finite sequence of gate applications. -/
def applyGates (T : CliffordTableau) (L : List GateOp) : CliffordTableau :=
  L.foldl applyGate T

/-- Bool into ZMod 2. -/
def bz2 (b : Bool) : ZMod 2 := if b then 1 else 0

/-- Symplectic inner product of rows i and j of the tableau:
sum over columns k < n of x_i(k) z_j(k) + x_j(k) z_i(k), in GF(2). -/
def sp (T : CliffordTableau) (i j : Nat) : ZMod 2 :=
  ∑ k in Finset.range T.n,
    (bz2 (T.xs i k) * bz2 (T.zs j k) + bz2 (T.xs j k) * bz2 (T.zs i k))

/-- Rows i of S and k of T coincide (x-vector, z-vector and sign). -/
def rowEq (S T : CliffordTableau) (i k : Nat) : Prop :=
  (∀ j, S.xs i j = T.xs k j) ∧ (∀ j, S.zs i j = T.zs k j) ∧ S.rs i = T.rs k

/-!
## CH-form state (stabilizer_state_ch_form.py, class StabilizerStateChForm)

The state omega * U_C * U_H * |s> is stored as the binary matrices G, F,
M (n x n), the integer vector gamma (mod 4), the binary vectors v, s and
the scalar omega.  Matrices and vectors are total functions; only
indices below n are meaningful.
-/

structure StabilizerStateChForm where
  n : Nat
  G : Nat → Nat → Bool
  F : Nat → Nat → Bool
  M : Nat → Nat → Bool
  gamma : Nat → Int
  v : Nat → Bool
  s : Nat → Bool
  omega : Zeta8

/-- The state of StabilizerStateChForm.__init__ before the initial X
flips: F = G = identity, M = 0, gamma = 0, v = s = 0, omega = 1. -/
def chBase (n : Nat) : StabilizerStateChForm where
  n := n
  G := fun i j => decide (i < n) && decide (i = j)
  F := fun i j => decide (i < n) && decide (i = j)
  M := fun _ _ => false
  gamma := fun _ => 0
  v := fun _ => false
  s := fun _ => false
  omega := Zeta8.one

/-- StabilizerStateChForm._S with right=False:
M[q,:] ^= G[q,:]; gamma[q] = (gamma[q] - 1) % 4. -/
def chSleft (st : StabilizerStateChForm) (q : Nat) : StabilizerStateChForm :=
  { st with M := fun i j => if i = q then st.M i j ^^ st.G i j else st.M i j,
            gamma := fun i => if i = q then (st.gamma i - 1) % 4 else st.gamma i }

/-- StabilizerStateChForm._S with right=True:
M[:,q] ^= F[:,q]; gamma[:] = (gamma[:] - F[:,q]) % 4. -/
def chSright (st : StabilizerStateChForm) (q : Nat) : StabilizerStateChForm :=
  { st with M := fun i j => if j = q then st.M i j ^^ st.F i j else st.M i j,
            gamma := fun i => (st.gamma i - bti (st.F i q)) % 4 }

/-- StabilizerStateChForm._Z: S applied twice (left). -/
def chZ (st : StabilizerStateChForm) (q : Nat) : StabilizerStateChForm :=
  chSleft (chSleft st q) q

/-- StabilizerStateChForm._CZ with right=True:
M[:,q] ^= F[:,r]; M[:,r] ^= F[:,q]; gamma += 2*F[:,q]*F[:,r] (mod 4). -/
def chCZright (st : StabilizerStateChForm) (q r : Nat) : StabilizerStateChForm :=
  let M1 := fun i j => if j = q then st.M i j ^^ st.F i r else st.M i j
  { st with M := fun i j => if j = r then M1 i j ^^ st.F i q else M1 i j,
            gamma := fun i => (st.gamma i + 2 * (bti (st.F i q) * bti (st.F i r))) % 4 }

/-- StabilizerStateChForm._CZ with right=False:
M[q,:] ^= G[r,:]; M[r,:] ^= G[q,:]. -/
def chCZleft (st : StabilizerStateChForm) (q r : Nat) : StabilizerStateChForm :=
  let M1 := fun i j => if i = q then st.M i j ^^ st.G r j else st.M i j
  { st with M := fun i j => if i = r then M1 i j ^^ st.G q j else M1 i j }

/-- StabilizerStateChForm._CNOT with right=True:
G[:,q] ^= G[:,r]; F[:,r] ^= F[:,q]; M[:,q] ^= M[:,r]. -/
def chCNOTright (st : StabilizerStateChForm) (q r : Nat) : StabilizerStateChForm :=
  { st with G := fun i j => if j = q then st.G i j ^^ st.G i r else st.G i j,
            F := fun i j => if j = r then st.F i j ^^ st.F i q else st.F i j,
            M := fun i j => if j = q then st.M i j ^^ st.M i r else st.M i j }

/-- StabilizerStateChForm._CNOT with right=False: the gamma update uses
the pre-update M and F, then G[r,:] ^= G[q,:]; F[q,:] ^= F[r,:];
M[q,:] ^= M[r,:]. -/
def chCNOTleft (st : StabilizerStateChForm) (q r : Nat) : StabilizerStateChForm :=
  { st with gamma := fun i => if i = q then
                (st.gamma q + st.gamma r
                  + 2 * Int.ofNat (countB st.n (fun j => st.M q j && st.F r j) % 2)) % 4
              else st.gamma i,
            G := fun i j => if i = r then st.G i j ^^ st.G q j else st.G i j,
            F := fun i j => if i = q then st.F i j ^^ st.F r j else st.F i j,
            M := fun i j => if i = q then st.M i j ^^ st.M r j else st.M i j }

/-- StabilizerStateChForm._H_decompose: decompose
H^v (|y> + i^delta |z>) = omega S^a H^b |c> for a single qubit; the
result tuple is (omega, a, b, c), or none when y = z (the source raises
ValueError there).  Callers always pass delta already reduced mod 4. -/
def hDecompose (v y z : Bool) (delta : Int) : Option (Zeta8 × Bool × Bool × Bool) :=
  if y = z then none
  else if v = false then
    let w := Zeta8.iPowInt (delta * bti y)
    let d2 := ((if y then -delta else delta) % 4).toNat
    some (w, decide (d2 % 2 = 1), true, decide (2 ≤ d2))
  else if delta % 2 = 0 then
    let c := decide (2 ≤ delta)
    some ((if c && y then Zeta8.neg Zeta8.one else Zeta8.one), false, false, c)
  else
    some (Zeta8.mul Zeta8.invSqrt2 (Zeta8.add Zeta8.one (Zeta8.iPowInt delta)),
          true, true, !(decide (2 ≤ delta) ^^ y))

/-- set0 of StabilizerStateChForm._update_sum: indices k < n with v
false where t and u differ (ascending, as np.where returns them). -/
def usSet0 (n : Nat) (v t u : Nat → Bool) : List Nat :=
  (List.range n).filter (fun k => !v k && (t k ^^ u k))

/-- set1 of StabilizerStateChForm._update_sum: indices k < n with v
true where t and u differ. -/
def usSet1 (n : Nat) (v t u : Nat → Bool) : List Nat :=
  (List.range n).filter (fun k => v k && (t k ^^ u k))

/-- The basis vector e of _update_sum (e[q] = True). -/
def usE (q : Nat) : Nat → Bool := fun k => decide (k = q)

/-- The vector y of _update_sum: u ^ e if t[q] is set, else t. -/
def usY (t u : Nat → Bool) (q : Nat) : Nat → Bool :=
  if t q then fun k => u k ^^ usE q k else t

/-- The vector z of _update_sum: u if t[q] is set, else t ^ e. -/
def usZ (t u : Nat → Bool) (q : Nat) : Nat → Bool :=
  if t q then u else fun k => t k ^^ usE q k

/-- The tail of _update_sum after the right-multiplied reduction to the
pivot q: build y and z, decompose the single-qubit state on the pivot,
then set s, multiply omega, optionally right-apply S, and update v[q]. -/
def usFinish (t u : Nat → Bool) (delta : Int) (alpha : Nat)
    (st1 : StabilizerStateChForm) (q : Nat) : Option StabilizerStateChForm :=
  let y := usY t u q
  let z := usZ t u q
  match hDecompose (st1.v q) (y q) (z q) delta with
  | none => none
  | some (w, a, b, c) =>
    let st2 := { st1 with s := fun k => if k = q then c else y k,
                          omega := Zeta8.mul st1.omega
                            (Zeta8.mul (Zeta8.negOnePow alpha) w) }
    let st3 := if a then chSright st2 q else st2
    some { st3 with v := fun k => if k = q then st3.v k ^^ (b ^^ st3.v k) else st3.v k }

/-- StabilizerStateChForm._update_sum: rewrite
i^alpha U_H (|t> + i^delta |u>) into CH form.  Returns none exactly when
the source would raise (the y = z ValueError of _H_decompose, or the
unbound pivot q when both difference sets are empty — both cases are
proven unreachable below). -/
def updateSum (st : StabilizerStateChForm) (t u : Nat → Bool) (delta : Int)
    (alpha : Nat) : Option StabilizerStateChForm :=
  if (List.range st.n).all (fun k => t k == u k) then
    some { st with s := t,
                   omega := Zeta8.mul st.omega
                     (Zeta8.mul Zeta8.invSqrt2
                       (Zeta8.mul (Zeta8.negOnePow alpha)
                         (Zeta8.add Zeta8.one (Zeta8.iPowInt delta)))) }
  else
    match usSet0 st.n st.v t u, usSet1 st.n st.v t u with
    | q0 :: rest0, set1 =>
        usFinish t u delta alpha
          (set1.foldl (fun A i => chCZright A q0 i)
            (rest0.foldl (fun A i => chCNOTright A q0 i) st)) q0
    | [], q1 :: rest1 =>
        usFinish t u delta alpha
          (rest1.foldl (fun A i => chCNOTright A i q1) st) q1
    | [], [] => none

/-- StabilizerStateChForm._H: compute t, u, alpha, beta, delta from row
p of G, F, M and hand off to _update_sum. -/
def chH (st : StabilizerStateChForm) (p : Nat) : Option StabilizerStateChForm :=
  let t := fun k => st.s k ^^ (st.G p k && st.v k)
  let u := fun k => (st.s k ^^ (st.F p k && !st.v k)) ^^ (st.M p k && st.v k)
  let alpha := countB st.n (fun k => (st.G p k && !st.v k) && st.s k) % 2
  let beta := (countB st.n (fun k => (st.M p k && !st.v k) && st.s k)
      + countB st.n (fun k => (st.F p k && st.v k) && st.M p k)
      + countB st.n (fun k => (st.F p k && st.v k) && st.s k)) % 2
  let delta := (st.gamma p + 2 * Int.ofNat (alpha + beta)) % 4
  updateSum st t u delta alpha

/-- StabilizerStateChForm._X: H(q); Z(q); H(q). -/
def chX (st : StabilizerStateChForm) (q : Nat) : Option StabilizerStateChForm :=
  (chH st q).bind (fun s1 => chH (chZ s1 q) q)

/-- StabilizerStateChForm._Y: Z(q); X(q); omega *= i. -/
def chY (st : StabilizerStateChForm) (q : Nat) : Option StabilizerStateChForm :=
  (chX (chZ st q) q).map
    (fun s2 => { s2 with omega := Zeta8.mul s2.omega Zeta8.I })

/-- StabilizerStateChForm.__init__: start from chBase and apply X at
qubit n-1-i for every set bit i of initial_state. -/
def chInit (n initialState : Nat) : Option StabilizerStateChForm :=
  (List.range (bitLen initialState)).foldlM
    (fun st i => if initialState.testBit i then chX st (n - i - 1) else some st)
    (chBase n)

/-- StabilizerStateChForm.inner_product_of_state_and_x: the amplitude
<x|psi>, computed exactly.  y is the big-endian bit vector of x; u and
mu are accumulated qubit by qubit exactly as in the source. -/
def chAmplitude (st : StabilizerStateChForm) (x : Nat) : Zeta8 :=
  let y := fun p => x.testBit (st.n - 1 - p)
  let mu0 : Int := (List.range st.n).foldl
    (fun m p => m + (if y p then st.gamma p else 0)) 0
  let acc := (List.range st.n).foldl
    (fun (acc : (Nat → Bool) × Int) p =>
      if y p then
        let u2 := fun k => acc.1 k ^^ st.F p k
        (u2, acc.2 + 2 * Int.ofNat (countB st.n (fun k => st.M p k && u2 k) % 2))
      else acc)
    (fun _ => false, mu0)
  let u := acc.1
  let mu := acc.2
  if (List.range st.n).all (fun k => st.v k || (u k == st.s k)) then
    Zeta8.mul st.omega
      (Zeta8.mul (Zeta8.pow Zeta8.invSqrt2 (countB st.n st.v))
        (Zeta8.mul (Zeta8.iPowInt mu)
          (Zeta8.negOnePow (countB st.n (fun k => (st.v k && u k) && st.s k)))))
  else Zeta8.zero

/-- StabilizerStateChForm.to_state_vector (and wave_function): the list
of amplitudes of all 2^n computational basis states. -/
def chToStateVector (st : StabilizerStateChForm) : List Zeta8 :=
  (List.range (2 ^ st.n)).map (chAmplitude st)

/-- The deterministic Z-measurement outcome encoded in the projector
phase of project_Z: the parity of |G[q,:] & ~v & s|. -/
def detOutcome (st : StabilizerStateChForm) (q : Nat) : Bool :=
  decide (countB st.n (fun k => (st.G q k && !st.v k) && st.s k) % 2 = 1)

/-- StabilizerStateChForm.project_Z: apply the Z_q = z projector.
t = s, u = (G[q,:] & v) ^ s,
delta = (2|G[q,:] & ~v & s| + 2 z) % 4; if t = u the scalar omega is
divided by sqrt 2 first; then _update_sum with alpha = 0. -/
def projectZ (st : StabilizerStateChForm) (q : Nat) (z : Bool) :
    Option StabilizerStateChForm :=
  let t := st.s
  let u := fun k => (st.G q k && st.v k) ^^ st.s k
  let delta := (2 * Int.ofNat (countB st.n (fun k => (st.G q k && !st.v k) && st.s k))
      + 2 * bti z) % 4
  let st1 := if (List.range st.n).all (fun k => t k == u k)
    then { st with omega := Zeta8.mul st.omega Zeta8.invSqrt2 } else st
  updateSum st1 t u delta 0

/-!
## Simulator driver (clifford_simulator.py)

The combined CliffordState owns one tableau and one CH form over the
same dense qubit indexing (the qubit-to-index map is taken to be the
identity on 0..n-1).  Randomness: the global numpy generator that
CliffordTableau._measure consumes via np.random.randint(2) is made
explicit as a stream of bits, threaded through every call that can
draw, exactly in the order the source draws.
-/

/-- The ambient stream of random bits (the global numpy generator). -/
def RStream : Type := Nat → Bool

/-- Advance the stream by one drawn bit. -/
def rTail (g : RStream) : RStream := fun k => g (k + 1)

structure CliffordState where
  tableau : CliffordTableau
  ch : StabilizerStateChForm

instance : Inhabited StabilizerStateChForm := ⟨chBase 0⟩

instance : Inhabited CliffordState := ⟨⟨tabInit 0 0, chBase 0⟩⟩

/-- CliffordState.__init__ for the identity qubit map on n qubits. -/
def stateInit (n initialState : Nat) : Option CliffordState :=
  (chInit n initialState).map (fun c => ⟨tabInit n initialState, c⟩)

/-- CliffordTableau._measure with the random bit drawn from the ambient
stream: the commuting branch consumes nothing, the anticommuting branch
consumes one bit. -/
def tabMeasureR (T : CliffordTableau) (q : Nat) (g : RStream) :
    (Bool × CliffordTableau) × RStream :=
  match firstStab T q with
  | none => (tabMeasure T q false, g)
  | some _ => (tabMeasure T q (g 0), rTail g)

/-- CliffordState.perform_measurement on a list of qubit indices: each
qubit is measured on the tableau and the outcome fed into the CH form's
project_Z, in order.  none models the ValueError of _H_decompose
propagating (proven unreachable). -/
def performMeasurement (st : CliffordState) (qs : List Nat) (g : RStream) :
    Option (List Bool × CliffordState × RStream) :=
  match qs with
  | [] => some ([], st, g)
  | q :: rest =>
      let m := tabMeasureR st.tableau q g
      match projectZ st.ch q m.1.1 with
      | none => none
      | some ch2 =>
          (performMeasurement ⟨m.1.2, ch2⟩ rest m.2).map
            (fun r => (m.1.1 :: r.1, r.2.1, r.2.2))

/-- The seven supported unitary gate applications as they appear on a
circuit operation (first qubit of CNOT/CZ is the control). -/
inductive G7App where
  | aX (q : Nat)
  | aY (q : Nat)
  | aZ (q : Nat)
  | aH (q : Nat)
  | aS (q : Nat)
  | aCNOT (c t : Nat)
  | aCZ (c t : Nat)
deriving DecidableEq, Repr

/-- str(op.gate) for the supported gates (as cirq prints them). -/
def G7App.gateName : G7App → String
  | .aX _ => "X"
  | .aY _ => "Y"
  | .aZ _ => "Z"
  | .aH _ => "H"
  | .aS _ => "S"
  | .aCNOT _ _ => "CNOT"
  | .aCZ _ _ => "CZ"

/-- A circuit operation as the driver classifies it:
a supported unitary gate; some other operation with a unitary (e.g. a T
gate); a computational-basis measurement with its key; or an operation
with neither a unitary nor measurement status (e.g. a noise channel). -/
inductive CircuitOp where
  | unitary (g : G7App)
  | otherUnitary (gateName : String) (qs : List Nat)
  | measurement (key : String) (qs : List Nat)
  | nonUnitary (gateName : String) (qs : List Nat)
deriving DecidableEq, Repr

/-- protocols.has_unitary(op) for the four operation classes. -/
def CircuitOp.hasUnitary : CircuitOp → Bool
  | .unitary _ => true
  | .otherUnitary _ _ => true
  | .measurement _ _ => false
  | .nonUnitary _ _ => false

/-- protocols.is_measurement(op) for the four operation classes. -/
def CircuitOp.isMeasurement : CircuitOp → Bool
  | .measurement _ _ => true
  | _ => false

/-- CliffordState.apply_unitary: dispatch on the gate identity, applying
the update to both representations; any other gate raises
ValueError('%s cannot be run with Clifford simulator' % str(op.gate)).
The none of a CH update is mapped to the error it raises in the source. -/
def applyUnitaryOp (st : CliffordState) : CircuitOp → Except String CliffordState
  | .unitary (.aX q) =>
      match chX st.ch q with
      | some c => .ok ⟨tabX st.tableau q, c⟩
      | none => .error ("ValueError: |y> is equal to |z>")
  | .unitary (.aY q) =>
      match chY st.ch q with
      | some c => .ok ⟨tabY st.tableau q, c⟩
      | none => .error ("ValueError: |y> is equal to |z>")
  | .unitary (.aZ q) => .ok ⟨tabZ st.tableau q, chZ st.ch q⟩
  | .unitary (.aH q) =>
      match chH st.ch q with
      | some c => .ok ⟨tabH st.tableau q, c⟩
      | none => .error ("ValueError: |y> is equal to |z>")
  | .unitary (.aS q) => .ok ⟨tabS st.tableau q, chSleft st.ch q⟩
  | .unitary (.aCNOT c t) => .ok ⟨tabCNOT st.tableau c t, chCNOTleft st.ch c t⟩
  | .unitary (.aCZ c t) => .ok ⟨tabCZ st.tableau c t, chCZleft st.ch c t⟩
  | .otherUnitary name _ => .error (name ++ " cannot be run with Clifford simulator")
  | .measurement _ _ => .error ("MeasurementGate cannot be run with Clifford simulator")
  | .nonUnitary name _ => .error (name ++ " cannot be run with Clifford simulator")

/-- The running data of one moment of CliffordSimulator._base_iterator:
the combined state, the measurement buckets (a defaultdict from key to
the list of bits collected so far) and the random stream. -/
structure SimAcc where
  state : CliffordState
  meas : String → List Bool
  rng : RStream

/-- One iteration of the operation loop of _base_iterator:
if the operation has a unitary, apply it; elif it is a measurement,
perform it and extend its key's bucket; else fall through — the source
has no else branch, so the operation is skipped. -/
def simulateOp (acc : SimAcc) (op : CircuitOp) : Except String SimAcc :=
  if op.hasUnitary then
    (applyUnitaryOp acc.state op).map (fun st2 => { acc with state := st2 })
  else if op.isMeasurement then
    match op with
    | .measurement key qs =>
        match performMeasurement acc.state qs acc.rng with
        | none => .error ("ValueError: |y> is equal to |z>")
        | some (bits, st2, g2) =>
            .ok { state := st2,
                  meas := fun k => if k = key then acc.meas k ++ bits else acc.meas k,
                  rng := g2 }
    | _ => .ok acc
  else
    .ok acc

/-- The operation loop of _base_iterator over one moment: sequential,
aborting at the first raised error. -/
def simulateMoment (acc : SimAcc) (ops : List CircuitOp) : Except String SimAcc :=
  ops.foldlM simulateOp acc

/-- CliffordSimulatorStepResult.sample: repeat a non-collapsing
perform_measurement on a private copy of the state.  The seed parameter
is accepted and, exactly as in the source, never used; the draws come
from the ambient stream, which advances across repetitions. -/
def sampleStep (st : CliffordState) (qs : List Nat) (reps : Nat)
    (seed : Option Nat) (g : RStream) : Option (List (List Bool) × RStream) :=
  match reps with
  | 0 => some ([], g)
  | r + 1 =>
      (performMeasurement st qs g).bind
        (fun out => (sampleStep st qs r seed out.2.2).map
          (fun rest => (out.1 :: rest.1, rest.2)))

/-!
## Signed Pauli action on exact state vectors (for checking the
stabilizer condition P |psi> = |psi> of a tableau row against the
CH form's amplitudes)

A tableau row i encodes the operator
(-1)^rs[i] * prod over qubits p of sigma(xs[i,p], zs[i,p]) with
sigma(0,0)=I, sigma(1,0)=X, sigma(0,1)=Z, sigma(1,1)=Y.  Qubit p
corresponds to bit n-1-p of a basis index (big endian), matching the
CH form's amplitude convention.
-/

/-- Matrix entry factor of one qubit: the value <out|sigma|in> where in
differs from out exactly when sigma has an X component.
I, X contribute 1; Z contributes (-1)^out; Y contributes i if out = 1
and -i if out = 0. -/
def pauliFactor (x z outBit : Bool) : Zeta8 :=
  if x && z then (if outBit then Zeta8.I else Zeta8.neg Zeta8.I)
  else if z then (if outBit then Zeta8.neg Zeta8.one else Zeta8.one)
  else Zeta8.one

/-- The basis-index mask flipped by the X components of row i:
bit n-1-p is set when xs[i,p] holds. -/
def rowMask (T : CliffordTableau) (i : Nat) : Nat :=
  (List.range T.n).foldl
    (fun m p => if T.xs i p then m ^^^ 2 ^ (T.n - 1 - p) else m) 0

/-- Apply the signed Pauli operator of tableau row i to an exact state
vector given as an amplitude function. -/
def applyTabRow (T : CliffordTableau) (i : Nat) (psi : Nat → Zeta8) :
    Nat → Zeta8 :=
  fun out =>
    let phase := (List.range T.n).foldl
      (fun w p => Zeta8.mul w (pauliFactor (T.xs i p) (T.zs i p)
        (out.testBit (T.n - 1 - p)))) Zeta8.one
    let signed := if T.rs i then Zeta8.mul (Zeta8.neg Zeta8.one) phase else phase
    Zeta8.mul signed (psi (out ^^^ rowMask T i))

/-!
## Concrete scenarios referenced by the claim theorems
-/

/-- The driver run of H(0); S(0); Y(0) on one qubit from |0>, every gate
applied through CliffordState.apply_unitary. -/
def c1Run : Except String CliffordState :=
  match stateInit 1 0 with
  | none => Except.error ("initial state construction failed")
  | some st0 =>
      (applyUnitaryOp st0 (.unitary (.aH 0))).bind
        (fun st1 => (applyUnitaryOp st1 (.unitary (.aS 0))).bind
          (fun st2 => applyUnitaryOp st2 (.unitary (.aY 0))))

/-- The combined state after H(0) on one qubit from |0> (the state whose
measurement is genuinely random). -/
def c6State : CliffordState :=
  ⟨tabH (tabInit 1 0) 0, ((chInit 1 0).bind (fun c => chH c 0)).getD (chBase 0)⟩

/-- The full divergence check for the run c1Run: the tableau's only
stabilizer row is -Y (xs = zs = sign = true at the only column), the CH
wavefunction is psi = [1/sqrt 2, i/sqrt 2] (the +1 eigenstate of Y),
the row's signed Pauli maps psi to -psi, and -psi is a different
complex vector from psi. -/
def c1Check : Bool :=
  match c1Run with
  | .error _ => false
  | .ok st =>
      let psi := chAmplitude st.ch
      let ppsi := applyTabRow st.tableau 1 psi
      st.tableau.xs 1 0 && st.tableau.zs 1 0 && st.tableau.rs 1
        && decide (Zeta8.eqv (psi 0) Zeta8.invSqrt2)
        && decide (Zeta8.eqv (psi 1) (Zeta8.mul Zeta8.I Zeta8.invSqrt2))
        && decide (Zeta8.eqv (ppsi 0) (Zeta8.neg (psi 0)))
        && decide (Zeta8.eqv (ppsi 1) (Zeta8.neg (psi 1)))
        && !(decide (Zeta8.eqv (ppsi 0) (psi 0)))

/-!
## Theorems

First the small algebraic toolkit for Zeta8, then generic list lemmas,
then the claims.
-/

theorem Zeta8.mul_one (x : Zeta8) : Zeta8.mul x Zeta8.one = x := by
  cases x with
  | mk a b c d e => simp [Zeta8.mul, Zeta8.one]

theorem Zeta8.one_mul (x : Zeta8) : Zeta8.mul Zeta8.one x = x := by
  cases x with
  | mk a b c d e => simp [Zeta8.mul, Zeta8.one]

theorem Zeta8.mul_assoc (x y z : Zeta8) :
    Zeta8.mul (Zeta8.mul x y) z = Zeta8.mul x (Zeta8.mul y z) := by
  cases x with
  | mk a1 b1 c1 d1 e1 =>
    cases y with
    | mk a2 b2 c2 d2 e2 =>
      cases z with
      | mk a3 b3 c3 d3 e3 =>
        simp only [Zeta8.mul, Zeta8.mk.injEq]
        refine ⟨by ring, by ring, by ring, by ring, by omega⟩

/-- Multiplying by a representation of 1 (pure real coordinate 2^e)
preserves the represented number. -/
theorem Zeta8.mul_eqv_one (x y : Zeta8) (ha : y.a = 2 ^ y.e) (hb : y.b = 0)
    (hc : y.c = 0) (hd : y.d = 0) : Zeta8.eqv (Zeta8.mul x y) x := by
  cases x with
  | mk a1 b1 c1 d1 e1 =>
    cases y with
    | mk a2 b2 c2 d2 e2 =>
      simp only at ha hb hc hd
      subst ha hb hc hd
      simp only [Zeta8.eqv, Zeta8.mul]
      refine ⟨by ring, by ring, by ring, by ring⟩

/-- A product with a representation of 0 on the right represents 0. -/
theorem Zeta8.mul_isZero_right (x y : Zeta8) (h : Zeta8.isZero y) :
    Zeta8.isZero (Zeta8.mul x y) := by
  obtain ⟨ha, hb, hc, hd⟩ := h
  simp only [Zeta8.isZero, Zeta8.mul, ha, hb, hc, hd]
  refine ⟨by ring, by ring, by ring, by ring⟩

/-- A product with a representation of 0 on the left represents 0. -/
theorem Zeta8.mul_isZero_left (x y : Zeta8) (h : Zeta8.isZero x) :
    Zeta8.isZero (Zeta8.mul x y) := by
  obtain ⟨ha, hb, hc, hd⟩ := h
  simp only [Zeta8.isZero, Zeta8.mul, ha, hb, hc, hd]
  refine ⟨by ring, by ring, by ring, by ring⟩

/-- C7: on one qubit from |0>, H(q0) gives the state vector
[1/sqrt 2, 1/sqrt 2]; on two qubits from |0>, H(q0) then CNOT(q0,q1)
gives the Bell vector [1/sqrt 2, 0, 0, 1/sqrt 2].  Computed in exact
arithmetic, the vectors are equal on the nose, which in particular puts
them within the claimed 1e-8 componentwise tolerance. -/
theorem C7_amplitude_roundtrip :
    ((chInit 1 0).bind (fun st => chH st 0)).map chToStateVector
      = some [Zeta8.invSqrt2, Zeta8.invSqrt2] ∧
    ((chInit 2 0).bind (fun st => chH st 0)).map
        (fun st => chToStateVector (chCNOTleft st 0 1))
      = some [Zeta8.invSqrt2, Zeta8.zero, Zeta8.zero, Zeta8.invSqrt2] := by
  decide

/-- C1 (code bug): after H(0); S(0); Y(0) applied through
CliffordState.apply_unitary from |0>, the CH form holds the state
psi = [1/sqrt 2, i/sqrt 2] (the +1 eigenstate of Y, which is correct),
but the tableau's single stabilizer row is -Y (xs = zs = true, sign
set): applying that signed Pauli to psi yields -psi, not psi, so the
stabilizer row is not a +1 eigenoperator of the CH wavefunction.  The
cause is CliffordTableau._Y flipping signs with xs|zs instead of xs^zs,
which wrongly flips rows whose local Pauli at q is Y. -/
theorem C1_tableau_ch_divergence : c1Check = true := by decide

/-- C6 (code bug): CliffordSimulatorStepResult.sample accepts a seed but
never uses it; the random bit comes from the ambient global generator.
On the state H|0>, two sample calls with identical arguments (same
qubits, repetitions and seed) but different ambient generator states
return different results, so sample is not a deterministic function of
its arguments and the step's state. -/
theorem C6_sample_ignores_seed :
    ((sampleStep c6State [0] 1 (some 1234) (fun _ => false)).map (fun r => r.1)
      = some [[false]]) ∧
    ((sampleStep c6State [0] 1 (some 1234) (fun _ => true)).map (fun r => r.1)
      = some [[true]]) ∧
    ((sampleStep c6State [0] 1 (some 1234) (fun _ => false)).map (fun r => r.1)
      ≠ (sampleStep c6State [0] 1 (some 1234) (fun _ => true)).map (fun r => r.1)) := by
  decide

/-- C2 (counterexample): an operation that has no unitary and is not a
measurement — e.g. a noise channel — is not one of the seven supported
kinds, yet the moment-iteration loop raises no error for it: it is
silently skipped (the source's operation loop has no else branch), the
state, measurement buckets and generator untouched.  This refutes the
claim that every unsupported non-measurement operation raises. -/
theorem C2_counterexample :
    simulateOp ⟨⟨tabInit 1 0, chBase 1⟩, fun _ => [], fun _ => false⟩
        (.nonUnitary "amplitude damping channel" [0])
      = .ok ⟨⟨tabInit 1 0, chBase 1⟩, fun _ => [], fun _ => false⟩ := rfl

/-- C2 (amended): for every operation that reports a unitary but whose
gate is not one of the seven supported kinds, apply_unitary raises
ValueError with a message naming the gate; the moment loop propagates
the first such error, so execution aborts at the first offending
operation and the remaining operations are never reached; operations
with neither a unitary nor measurement status are skipped without
effect. -/
theorem C2_amended (acc : SimAcc) (name : String) (qs : List Nat) :
    (simulateOp acc (.otherUnitary name qs)
        = .error (name ++ " cannot be run with Clifford simulator")) ∧
    (simulateOp acc (.nonUnitary name qs) = .ok acc) ∧
    (∀ ops1 ops2 acc2, simulateMoment acc ops1 = .ok acc2 →
      simulateMoment acc (ops1 ++ .otherUnitary name qs :: ops2)
        = .error (name ++ " cannot be run with Clifford simulator")) := by
  refine ⟨rfl, rfl, ?_⟩
  intro ops1 ops2 acc2 h
  unfold simulateMoment at h ⊢
  rw [List.foldlM_append, h]
  rfl

/-- Witness for C2_amended: a moment X(0); T(0); H(0) on one qubit
aborts at the T gate with the message naming T. -/
theorem C2_witness :
    simulateMoment ⟨⟨tabInit 1 0, chBase 1⟩, fun _ => [], fun _ => false⟩
        [.unitary (.aX 0), .otherUnitary "T" [0], .unitary (.aH 0)]
      = .error ("T" ++ " cannot be run with Clifford simulator") := by
  have h := (C2_amended ⟨⟨tabInit 1 0, chBase 1⟩, fun _ => [], fun _ => false⟩ "T" [0]).2.2
  exact h [.unitary (.aX 0)] [.unitary (.aH 0)] _ rfl

/-- The pivot coordinate of y and z always differ: whichever branch
defines them, position q of y is the complement of position q of z. -/
theorem usYZ_ne (t u : Nat → Bool) (q : Nat) : usY t u q q ≠ usZ t u q q := by
  by_cases h : t q = true <;>
    cases hu : u q <;>
      simp [usY, usZ, usE, h, hu]

/-- _H_decompose returns a value whenever its precondition y != z holds
(every branch after the precondition check produces a result). -/
theorem hDecompose_isSome (v y z : Bool) (delta : Int) (h : y ≠ z) :
    (hDecompose v y z delta).isSome = true := by
  unfold hDecompose
  rw [if_neg h]
  by_cases hv : v = false <;> by_cases hd : delta % 2 = 0 <;> simp [hv, hd]

/-- The tail of _update_sum always succeeds: the pivot coordinate of y
and z differ, so _H_decompose cannot hit its error branch. -/
theorem usFinish_isSome (t u : Nat → Bool) (delta : Int) (alpha : Nat)
    (st1 : StabilizerStateChForm) (q : Nat) :
    (usFinish t u delta alpha st1 q).isSome = true := by
  unfold usFinish
  rcases hsome : hDecompose (st1.v q) (usY t u q q) (usZ t u q q) delta with _ | val
  · have := hDecompose_isSome (st1.v q) (usY t u q q) (usZ t u q q) delta (usYZ_ne t u q)
    rw [hsome] at this
    simp at this
  · rcases val with ⟨w, a, b, c⟩
    simp [hsome]

/-- _update_sum never fails: if t = u on all coordinates the
short-circuit branch applies; otherwise some coordinate below n
differs, so one of the two difference sets is nonempty, the pivot
exists, and _H_decompose is called with y[q] != z[q]. -/
theorem updateSum_isSome (st : StabilizerStateChForm) (t u : Nat → Bool)
    (delta : Int) (alpha : Nat) : (updateSum st t u delta alpha).isSome = true := by
  unfold updateSum
  split
  · rfl
  · rename_i hAll
    have hex : ∃ k, k ∈ List.range st.n ∧ (t k == u k) = false := by
      by_contra hc
      push_neg at hc
      apply hAll
      apply List.all_eq_true.mpr
      intro x hx
      have := hc x hx
      revert this
      cases t x == u x <;> simp
    obtain ⟨k, hk, hne⟩ := hex
    have hxor : (t k ^^ u k) = true := by
      revert hne; cases t k <;> cases u k <;> simp
    rcases hs0 : usSet0 st.n st.v t u with _ | ⟨q0, rest0⟩ <;>
      rcases hs1 : usSet1 st.n st.v t u with _ | ⟨q1, rest1⟩
    · exfalso
      by_cases hv : st.v k = true
      · have : k ∈ usSet1 st.n st.v t u :=
          List.mem_filter.mpr ⟨hk, by simp [hv, hxor]⟩
        rw [hs1] at this
        simp at this
      · have : k ∈ usSet0 st.n st.v t u :=
          List.mem_filter.mpr ⟨hk, by simp [hv, hxor]⟩
        rw [hs0] at this
        simp at this
    · simp only [hs0, hs1]
      exact usFinish_isSome t u delta alpha _ q1
    · simp only [hs0, hs1]
      exact usFinish_isSome t u delta alpha _ q0
    · simp only [hs0, hs1]
      exact usFinish_isSome t u delta alpha _ q0

/-- _H never raises. -/
theorem chH_isSome (st : StabilizerStateChForm) (p : Nat) :
    (chH st p).isSome = true := by
  unfold chH
  exact updateSum_isSome _ _ _ _ _

/-- _X never raises. -/
theorem chX_isSome (st : StabilizerStateChForm) (q : Nat) :
    (chX st q).isSome = true := by
  unfold chX
  obtain ⟨s1, hs1⟩ := Option.isSome_iff_exists.mp (chH_isSome st q)
  rw [hs1]
  exact chH_isSome _ _

/-- _Y never raises. -/
theorem chY_isSome (st : StabilizerStateChForm) (q : Nat) :
    (chY st q).isSome = true := by
  unfold chY
  obtain ⟨s2, hs2⟩ := Option.isSome_iff_exists.mp (chX_isSome (chZ st q) q)
  rw [hs2]
  rfl

/-- project_Z never raises. -/
theorem projectZ_isSome (st : StabilizerStateChForm) (q : Nat) (z : Bool) :
    (projectZ st q z).isSome = true := by
  unfold projectZ
  exact updateSum_isSome _ _ _ _ _

/-- C9: the y = z error branch of _H_decompose is unreachable from the
public operations.  _update_sum always succeeds: whenever its t and u
differ somewhere below n, the selected pivot q is a difference position
and the vectors y, z it builds satisfy y[q] != z[q] at the call to
_H_decompose; consequently no supported gate (H, X, Y; S, Z, CNOT, CZ
are total) and no project_Z ever raises the ValueError. -/
theorem C9_decompose_error_unreachable :
    (∀ (t u : Nat → Bool) q, usY t u q q ≠ usZ t u q q) ∧
    (∀ st (t u : Nat → Bool) delta alpha, (updateSum st t u delta alpha).isSome = true) ∧
    (∀ st p, (chH st p).isSome = true) ∧
    (∀ st q, (chX st q).isSome = true) ∧
    (∀ st q, (chY st q).isSome = true) ∧
    (∀ st q z, (projectZ st q z).isSome = true) :=
  ⟨usYZ_ne, updateSum_isSome, chH_isSome, chX_isSome, chY_isSome, projectZ_isSome⟩

/-- Projector phase arithmetic: measuring the outcome that matches the
parity gives delta = 0. -/
theorem deltaMatch (c : Nat) :
    (2 * Int.ofNat c + 2 * bti (decide (c % 2 = 1))) % 4 = 0 := by
  rcases Nat.mod_two_eq_zero_or_one c with h | h <;> simp [h, bti] <;> omega

/-- Projector phase arithmetic: measuring the opposite outcome gives
delta = 2. -/
theorem deltaMismatch (c : Nat) :
    (2 * Int.ofNat c + 2 * bti (!decide (c % 2 = 1))) % 4 = 2 := by
  rcases Nat.mod_two_eq_zero_or_one c with h | h <;> simp [h, bti] <;> omega

/-- When G[q,:] & v vanishes, project_Z reduces to the degenerate branch
of _update_sum: it returns the same sextuple with omega scaled by
(1 + i^delta)/2. -/
theorem projectZ_deterministic_eq (st : StabilizerStateChForm) (q : Nat)
    (hdet : ∀ k, k < st.n → (st.G q k && st.v k) = false) (z : Bool) :
    projectZ st q z = some { st with
      omega := Zeta8.mul (Zeta8.mul st.omega Zeta8.invSqrt2)
        (Zeta8.mul Zeta8.invSqrt2
          (Zeta8.mul (Zeta8.negOnePow 0)
            (Zeta8.add Zeta8.one (Zeta8.iPowInt
              ((2 * Int.ofNat (countB st.n (fun k => (st.G q k && !st.v k) && st.s k))
                + 2 * bti z) % 4))))) } := by
  have hall : ((List.range st.n).all
      (fun k => st.s k == ((st.G q k && st.v k) ^^ st.s k))) = true := by
    apply List.all_eq_true.mpr
    intro k hk
    rw [hdet k (List.mem_range.mp hk)]
    simp
  simp only [projectZ, updateSum, hall, if_true]

/-- C10: when G[q,:] & v is all-false (so t = u inside project_Z, the
deterministic-measurement situation), project_Z never raises for either
outcome; for the outcome matching the encoded parity the whole sextuple
is returned with omega representing the same complex number (the source
multiplies the float omega by (1+i^0)/2 = 1), and for the opposite
outcome omega becomes exactly the complex number 0, so every amplitude
of the resulting representation is exactly 0. -/
theorem C10_projectZ_deterministic (st : StabilizerStateChForm) (q : Nat)
    (hdet : ∀ k, k < st.n → (st.G q k && st.v k) = false) :
    (∀ z, (projectZ st q z).isSome = true) ∧
    (∃ st1, projectZ st q (detOutcome st q) = some st1 ∧
       st1.n = st.n ∧ st1.G = st.G ∧ st1.F = st.F ∧ st1.M = st.M ∧
       st1.gamma = st.gamma ∧ st1.v = st.v ∧ st1.s = st.s ∧
       Zeta8.eqv st1.omega st.omega) ∧
    (∃ st0, projectZ st q (!detOutcome st q) = some st0 ∧
       Zeta8.isZero st0.omega ∧ (∀ x, Zeta8.isZero (chAmplitude st0 x))) := by
  refine ⟨fun z => projectZ_isSome st q z, ?_, ?_⟩
  · refine ⟨_, projectZ_deterministic_eq st q hdet (detOutcome st q),
      rfl, rfl, rfl, rfl, rfl, rfl, rfl, ?_⟩
    have hd0 : (2 * Int.ofNat (countB st.n (fun k => (st.G q k && !st.v k) && st.s k))
        + 2 * bti (detOutcome st q)) % 4 = 0 := by
      unfold detOutcome
      exact deltaMatch _
    rw [hd0]
    have h1 : Zeta8.mul Zeta8.invSqrt2
        (Zeta8.mul (Zeta8.negOnePow 0)
          (Zeta8.add Zeta8.one (Zeta8.iPowInt 0))) = ⟨0, 2, 0, -2, 1⟩ := by decide
    rw [h1, Zeta8.mul_assoc]
    have h2 : Zeta8.mul Zeta8.invSqrt2 (⟨0, 2, 0, -2, 1⟩ : Zeta8) = ⟨4, 0, 0, 0, 2⟩ := by
      decide
    rw [h2]
    exact Zeta8.mul_eqv_one _ _ (by decide) rfl rfl rfl
  · refine ⟨_, projectZ_deterministic_eq st q hdet (!detOutcome st q), ?_, ?_⟩
    · have hd2 : (2 * Int.ofNat (countB st.n (fun k => (st.G q k && !st.v k) && st.s k))
          + 2 * bti (!detOutcome st q)) % 4 = 2 := by
        unfold detOutcome
        exact deltaMismatch _
      rw [hd2]
      exact Zeta8.mul_isZero_right _ _ (by decide)
    · intro x
      have hz : Zeta8.isZero (Zeta8.mul (Zeta8.mul st.omega Zeta8.invSqrt2)
          (Zeta8.mul Zeta8.invSqrt2
            (Zeta8.mul (Zeta8.negOnePow 0)
              (Zeta8.add Zeta8.one (Zeta8.iPowInt
                ((2 * Int.ofNat (countB st.n (fun k => (st.G q k && !st.v k) && st.s k))
                  + 2 * bti (!detOutcome st q)) % 4)))))) := by
        have hd2 : (2 * Int.ofNat (countB st.n (fun k => (st.G q k && !st.v k) && st.s k))
            + 2 * bti (!detOutcome st q)) % 4 = 2 := by
          unfold detOutcome
          exact deltaMismatch _
        rw [hd2]
        exact Zeta8.mul_isZero_right _ _ (by decide)
      simp only [chAmplitude]
      split
      · exact Zeta8.mul_isZero_left _ _ hz
      · exact ⟨rfl, rfl, rfl, rfl⟩

/-- Witness for C10 on the one-qubit |0> state at qubit 0: the
hypothesis holds (G[0,:] & v = 0) and the matching outcome is 0. -/
theorem C10_witness :
    (projectZ (chBase 1) 0 (detOutcome (chBase 1) 0)).isSome = true :=
  (C10_projectZ_deterministic (chBase 1) 0 (by decide)).1 (detOutcome (chBase 1) 0)

/-!
Row-level toolkit for the measurement theorems.
-/

theorem rowEq_refl (T : CliffordTableau) (i : Nat) : rowEq T T i i :=
  ⟨fun _ => rfl, fun _ => rfl, rfl⟩

theorem rowEq_trans {A B C : CliffordTableau} {i k l : Nat}
    (h1 : rowEq A B i k) (h2 : rowEq B C k l) : rowEq A C i l :=
  ⟨fun j => (h1.1 j).trans (h2.1 j),
   fun j => (h1.2.1 j).trans (h2.2.1 j),
   h1.2.2.trans h2.2.2⟩

/-- Structure extensionality for tableaux. -/
theorem tab_ext (A B : CliffordTableau) (hn : A.n = B.n)
    (hr : ∀ i, A.rs i = B.rs i) (hx : ∀ i j, A.xs i j = B.xs i j)
    (hz : ∀ i j, A.zs i j = B.zs i j) : A = B := by
  cases A with
  | mk n1 r1 x1 z1 =>
    cases B with
    | mk n2 r2 x2 z2 =>
      simp only at hn hr hx hz
      subst hn
      simp only [CliffordTableau.mk.injEq, true_and]
      exact ⟨funext hr, funext fun i => funext (hx i), funext fun i => funext (hz i)⟩

/-- tabRowsum writes only row q1. -/
theorem tabRowsum_other (T : CliffordTableau) (q1 q2 i : Nat) (h : i ≠ q1) :
    rowEq (tabRowsum T q1 q2) T i i := by
  refine ⟨fun j => ?_, fun j => ?_, ?_⟩ <;> simp [tabRowsum, h]

/-- The rowsum phase depends only on rows q1 and q2 (and n). -/
theorem rowsumPhase_congr (S T : CliffordTableau) (q1 q2 : Nat)
    (hn : S.n = T.n) (h1 : rowEq S T q1 q1) (h2 : rowEq S T q2 q2) :
    rowsumPhase S q1 q2 = rowsumPhase T q1 q2 := by
  unfold rowsumPhase
  rw [hn]
  have hf : (fun (r : Int) j => r + rowsumG (S.xs q2 j) (S.zs q2 j) (S.xs q1 j) (S.zs q1 j))
      = (fun (r : Int) j => r + rowsumG (T.xs q2 j) (T.zs q2 j) (T.xs q1 j) (T.zs q1 j)) := by
    funext r j
    rw [h1.1 j, h1.2.1 j, h2.1 j, h2.2.1 j]
  rw [hf, h1.2.2, h2.2.2]

/-- Row q1 of tabRowsum depends only on rows q1 and q2 of the input. -/
theorem tabRowsum_target_congr (S T : CliffordTableau) (q1 q2 : Nat)
    (hn : S.n = T.n) (h1 : rowEq S T q1 q1) (h2 : rowEq S T q2 q2) :
    rowEq (tabRowsum S q1 q2) (tabRowsum T q1 q2) q1 q1 := by
  refine ⟨fun j => ?_, fun j => ?_, ?_⟩ <;>
    simp [tabRowsum, h1.1, h1.2.1, h2.1, h2.2.1,
      rowsumPhase_congr S T q1 q2 hn h1 h2]

theorem measStepA_n (q p : Nat) (S : CliffordTableau) (i : Nat) :
    (measStepA q p S i).n = S.n := by
  unfold measStepA
  split <;> rfl

theorem measStepA_other (q p : Nat) (S : CliffordTableau) (i k : Nat) (h : k ≠ i) :
    rowEq (measStepA q p S i) S k k := by
  unfold measStepA
  split
  · exact tabRowsum_other S i p k h
  · exact rowEq_refl S k

/-- Characterization of the anticommuting-branch loop over a duplicate-
free list of row indices: n is preserved, row p is untouched, rows
outside the list are untouched, and every listed row i other than p
ends as the product of the original rows i and p when xs[i,q] was set,
untouched otherwise. -/
theorem measLoopA_char (q p : Nat) :
    ∀ (L : List Nat) (S : CliffordTableau), L.Nodup →
      (L.foldl (measStepA q p) S).n = S.n ∧
      rowEq (L.foldl (measStepA q p) S) S p p ∧
      (∀ i, i ∉ L → rowEq (L.foldl (measStepA q p) S) S i i) ∧
      (∀ i ∈ L, i ≠ p →
        (S.xs i q = true → rowEq (L.foldl (measStepA q p) S) (tabRowsum S i p) i i) ∧
        (S.xs i q = false → rowEq (L.foldl (measStepA q p) S) S i i)) := by
  intro L
  induction L with
  | nil =>
      intro S _
      exact ⟨rfl, rowEq_refl S p, fun i _ => rowEq_refl S i, fun i hi => absurd hi (by simp)⟩
  | cons i0 L ih =>
      intro S hnd
      simp only [List.foldl_cons]
      have hnd' := (List.nodup_cons.mp hnd).2
      have hi0 : i0 ∉ L := (List.nodup_cons.mp hnd).1
      obtain ⟨ihn, ihp, ihout, ihin⟩ := ih (measStepA q p S i0) hnd'
      have hSn : (measStepA q p S i0).n = S.n := measStepA_n q p S i0
      have hSp : rowEq (measStepA q p S i0) S p p := by
        by_cases hip : i0 = p
        · subst hip
          unfold measStepA
          rw [if_neg (by simp)]
          exact rowEq_refl S i0
        · exact measStepA_other q p S i0 p (fun h => hip h.symm)
      refine ⟨?_, ?_, ?_, ?_⟩
      · simpa [hSn] using ihn
      · exact rowEq_trans ihp hSp
      · intro i hi
        have hi1 : i ≠ i0 := fun h => hi (h ▸ List.mem_cons_self i0 L)
        have hi2 : i ∉ L := fun h => hi (List.mem_cons_of_mem i0 h)
        exact rowEq_trans (ihout i hi2) (measStepA_other q p S i0 i hi1)
      · intro i hi hip
        rcases List.mem_cons.mp hi with hieq | hiL
        · subst hieq
          constructor
          · intro hx
            have hstep : measStepA q p S i = tabRowsum S i p := by
              unfold measStepA
              rw [if_pos ⟨hip, hx⟩]
            rw [hstep]
            have h2 := ihout i hi0
            rw [hstep] at h2
            exact h2
          · intro hx
            have hstep : measStepA q p S i = S := by
              unfold measStepA
              rw [if_neg (by simp [hx])]
            rw [hstep]
            have h2 := ihout i hi0
            rw [hstep] at h2
            exact h2
        · have hii0 : i ≠ i0 := fun h => hi0 (h ▸ hiL)
          have hrow : rowEq (measStepA q p S i0) S i i := measStepA_other q p S i0 i hii0
          have hxeq : (measStepA q p S i0).xs i q = S.xs i q := hrow.1 q
          constructor
          · intro hx
            have h1 := (ihin i hiL hip).1 (by rw [hxeq]; exact hx)
            exact rowEq_trans h1 (tabRowsum_target_congr _ S i p hSn hrow hSp)
          · intro hx
            have h1 := (ihin i hiL hip).2 (by rw [hxeq]; exact hx)
            exact rowEq_trans h1 hrow

theorem measStepC_n (q : Nat) (S : CliffordTableau) (i : Nat) :
    (measStepC q S i).n = S.n := by
  unfold measStepC
  split <;> rfl

/-- The commuting-branch loop writes only the scratch row 2n. -/
theorem measLoopC_frame (q : Nat) :
    ∀ (L : List Nat) (S : CliffordTableau),
      (L.foldl (measStepC q) S).n = S.n ∧
      (∀ i, i ≠ 2 * S.n → rowEq (L.foldl (measStepC q) S) S i i) := by
  intro L
  induction L with
  | nil => exact fun S => ⟨rfl, fun i _ => rowEq_refl S i⟩
  | cons i0 L ih =>
      intro S
      obtain ⟨ihn, ihf⟩ := ih (measStepC q S i0)
      have hSn : (measStepC q S i0).n = S.n := measStepC_n q S i0
      refine ⟨by simpa [hSn] using ihn, ?_⟩
      intro i hi
      have h1 : rowEq (measStepC q S i0) S i i := by
        unfold measStepC
        split
        · exact tabRowsum_other S (2 * S.n) (S.n + i0) i hi
        · exact rowEq_refl S i
      exact rowEq_trans (ihf i (by rw [hSn]; exact hi)) h1

/-- find? only depends on the predicate's values on the list. -/
theorem find?_congr {α : Type} (f g : α → Bool) :
    ∀ (l : List α), (∀ x ∈ l, f x = g x) → l.find? f = l.find? g := by
  intro l
  induction l with
  | nil => intro _; rfl
  | cons a l ih =>
      intro h
      rw [List.find?_cons, List.find?_cons, h a (List.mem_cons_self a l)]
      cases g a
      · exact ih (fun x hx => h x (List.mem_cons_of_mem a hx))
      · rfl

/-- C4: when no stabilizer row has its x-bit set at column q, measure(q)
ignores the random bit entirely (the result is the same tableau and
outcome for every drawn bit), returns the sign bit accumulated in the
zeroed scratch row by multiplying in stabilizer row n+i for every
destabilizer row i with xs[i,q] set, leaves every entry of rows
0..2n-1 unchanged, and measuring the same qubit again returns the same
bit. -/
theorem C4_commuting (T : CliffordTableau) (q : Nat) (r : Bool)
    (hq : ∀ i, i < 2 * T.n → T.n ≤ i → T.xs i q = false) :
    (∀ r2, tabMeasure T q r = tabMeasure T q r2) ∧
    ((tabMeasure T q r).1
       = ((List.range T.n).foldl (measStepC q) (zeroScratch T)).rs (2 * T.n)) ∧
    (∀ i, i < 2 * T.n → rowEq (tabMeasure T q r).2 T i i) ∧
    ((tabMeasure (tabMeasure T q r).2 q r).1 = (tabMeasure T q r).1) := by
  have hfs : firstStab T q = none := by
    unfold firstStab
    apply List.find?_eq_none.mpr
    intro x hx
    obtain ⟨hx1, hx2⟩ := List.mem_range'_1.mp hx
    simp only [Bool.not_eq_true]
    exact hq x (by omega) hx1
  set R := (List.range T.n).foldl (measStepC q) (zeroScratch T) with hR
  obtain ⟨hRn0, hRf⟩ := measLoopC_frame q (List.range T.n) (zeroScratch T)
  have hRn : R.n = T.n := hRn0
  have hframe : ∀ i, i ≠ 2 * T.n → rowEq R T i i := by
    intro i hi
    have hz : rowEq (zeroScratch T) T i i := by
      refine ⟨fun j => ?_, fun j => ?_, ?_⟩ <;> simp [zeroScratch, hi]
    exact rowEq_trans (hRf i hi) hz
  have hmeasAll : ∀ r2, tabMeasure T q r2 = (R.rs (2 * R.n), R) := by
    intro r2
    simp only [tabMeasure, hfs]
  refine ⟨?_, ?_, ?_, ?_⟩
  · intro r2
    rw [hmeasAll r, hmeasAll r2]
  · rw [hmeasAll r]
    show R.rs (2 * R.n) = R.rs (2 * T.n)
    rw [hRn]
  · intro i hi
    rw [hmeasAll r]
    exact hframe i (by omega)
  · rw [hmeasAll r]
    show (tabMeasure R q r).1 = R.rs (2 * R.n)
    have hfs2 : firstStab R q = none := by
      unfold firstStab
      rw [hRn]
      rw [find?_congr (fun i => R.xs i q) (fun i => T.xs i q) _ (by
        intro x hx
        obtain ⟨hx1, hx2⟩ := List.mem_range'_1.mp hx
        exact (hframe x (by omega)).1 q)]
      unfold firstStab at hfs
      exact hfs
    have hzz : zeroScratch R = zeroScratch T := by
      apply tab_ext
      · exact hRn
      · intro i
        show (if i = 2 * R.n then false else R.rs i)
          = (if i = 2 * T.n then false else T.rs i)
        rw [hRn]
        by_cases hi : i = 2 * T.n
        · simp [hi]
        · simp [hi, (hframe i hi).2.2]
      · intro i j
        show (if i = 2 * R.n then false else R.xs i j)
          = (if i = 2 * T.n then false else T.xs i j)
        rw [hRn]
        by_cases hi : i = 2 * T.n
        · simp [hi]
        · simp [hi, (hframe i hi).1 j]
      · intro i j
        show (if i = 2 * R.n then false else R.zs i j)
          = (if i = 2 * T.n then false else T.zs i j)
        rw [hRn]
        by_cases hi : i = 2 * T.n
        · simp [hi]
        · simp [hi, (hframe i hi).2.1 j]
    simp only [tabMeasure, hfs2]
    rw [hRn, hzz, ← hR]
    rw [hRn]

/-- Witness for C4 on the fresh one-qubit tableau of |0> (stabilizer Z,
which commutes with the measurement): the measurement is independent of
the drawn random bit. -/
theorem C4_witness :
    tabMeasure (tabInit 1 0) 0 true = tabMeasure (tabInit 1 0) 0 false :=
  (C4_commuting (tabInit 1 0) 0 true (by decide)).1 false

/-- C3: when some stabilizer row anticommutes with the measurement
(xs[p,q] set for the first such row p scanned), measure(q) with drawn
random bit r returns r; afterwards row p holds no x-bits, its z-vector
is the unit vector at column q and its sign is r; the paired
destabilizer row p-n holds a copy of the original row p; and every
other row i below 2n was multiplied by row p when xs[i,q] was set and
left untouched otherwise. -/
theorem C3_anticommuting (T : CliffordTableau) (q : Nat) (r : Bool) (p : Nat)
    (hp : firstStab T q = some p) :
    (tabMeasure T q r).1 = r ∧
    (∀ j, (tabMeasure T q r).2.xs p j = false) ∧
    (∀ j, (tabMeasure T q r).2.zs p j = decide (j = q)) ∧
    ((tabMeasure T q r).2.rs p = r) ∧
    rowEq (tabMeasure T q r).2 T (p - T.n) p ∧
    (∀ i, i < 2 * T.n → i ≠ p → i ≠ p - T.n →
      (T.xs i q = true → rowEq (tabMeasure T q r).2 (tabRowsum T i p) i i) ∧
      (T.xs i q = false → rowEq (tabMeasure T q r).2 T i i)) := by
  have hp' : (List.range' T.n T.n).find? (fun i => T.xs i q) = some p := hp
  have hpmem : p ∈ List.range' T.n T.n := List.mem_of_find?_eq_some hp'
  obtain ⟨hp1, hp2⟩ := List.mem_range'_1.mp hpmem
  have hpn : p - T.n ≠ p := by omega
  obtain ⟨h1n, h1p, h1out, h1in⟩ :=
    measLoopA_char q p (List.range (2 * T.n)) T (List.nodup_range _)
  refine ⟨?_, ?_, ?_, ?_, ?_, ?_⟩
  · simp only [tabMeasure, hp]
  · intro j
    simp only [tabMeasure, hp]
    simp
  · intro j
    simp only [tabMeasure, hp]
    simp
  · simp only [tabMeasure, hp]
    simp
  · refine ⟨fun j => ?_, fun j => ?_, ?_⟩
    · simp only [tabMeasure, hp]
      simp only [h1n]
      simp [hpn, h1p.1 j]
    · simp only [tabMeasure, hp]
      simp only [h1n]
      simp [hpn, h1p.2.1 j]
    · simp only [tabMeasure, hp]
      simp only [h1n]
      simp [hpn, h1p.2.2]
  · intro i hi hip hipn
    have hiL : i ∈ List.range (2 * T.n) := List.mem_range.mpr hi
    have hipn' : i ≠ p - T.n := hipn
    constructor
    · intro hx
      have hrow := (h1in i hiL hip).1 hx
      refine ⟨fun j => ?_, fun j => ?_, ?_⟩
      · simp only [tabMeasure, hp]
        simp only [h1n]
        simp [hip, hipn']
        exact hrow.1 j
      · simp only [tabMeasure, hp]
        simp only [h1n]
        simp [hip, hipn']
        exact hrow.2.1 j
      · simp only [tabMeasure, hp]
        simp only [h1n]
        simp [hip, hipn']
        exact hrow.2.2
    · intro hx
      have hrow := (h1in i hiL hip).2 hx
      refine ⟨fun j => ?_, fun j => ?_, ?_⟩
      · simp only [tabMeasure, hp]
        simp only [h1n]
        simp [hip, hipn']
        exact hrow.1 j
      · simp only [tabMeasure, hp]
        simp only [h1n]
        simp [hip, hipn']
        exact hrow.2.1 j
      · simp only [tabMeasure, hp]
        simp only [h1n]
        simp [hip, hipn']
        exact hrow.2.2

/-- Witness for C3 on the one-qubit state H|0> (stabilizer X, which
anticommutes with Z measurement): the first anticommuting stabilizer
row is row 1 and the returned bit is the drawn bit. -/
theorem C3_witness :
    (tabMeasure (tabH (tabInit 1 0) 0) 0 true).1 = true :=
  (C3_anticommuting (tabH (tabInit 1 0) 0) 0 true 1 (by decide)).1

/-!
Symplectic-product preservation (C5).
-/

theorem sp_tabX (T : CliffordTableau) (q i j : Nat) : sp (tabX T q) i j = sp T i j := rfl

theorem sp_tabY (T : CliffordTableau) (q i j : Nat) : sp (tabY T q) i j = sp T i j := rfl

theorem sp_tabZ (T : CliffordTableau) (q i j : Nat) : sp (tabZ T q) i j = sp T i j := rfl

theorem sp_tabS (T : CliffordTableau) (q i j : Nat) : sp (tabS T q) i j = sp T i j := by
  unfold sp
  apply Finset.sum_congr rfl
  intro k _
  by_cases hk : k = q
  · subst hk
    have hcol : ∀ (xi zi xj zj : Bool),
        bz2 xi * bz2 (zj ^^ xj) + bz2 xj * bz2 (zi ^^ xi)
          = bz2 xi * bz2 zj + bz2 xj * bz2 zi := by decide
    simp [tabS, hcol]
  · simp [tabS, hk]

theorem sp_tabH (T : CliffordTableau) (q i j : Nat) : sp (tabH T q) i j = sp T i j := by
  unfold sp
  apply Finset.sum_congr rfl
  intro k _
  by_cases hk : k = q
  · subst hk
    have hcol : ∀ (xi zi xj zj : Bool),
        bz2 zi * bz2 xj + bz2 zj * bz2 xi = bz2 xi * bz2 zj + bz2 xj * bz2 zi := by decide
    simp [tabH, hcol]
  · simp [tabH, hk]

theorem sp_tabCNOT (T : CliffordTableau) (a b i j : Nat)
    (ha : a < T.n) (hb : b < T.n) (hab : a ≠ b) :
    sp (tabCNOT T a b) i j = sp T i j := by
  unfold sp
  have hn : (tabCNOT T a b).n = T.n := rfl
  rw [hn]
  have hbmem : b ∈ Finset.range T.n := Finset.mem_range.mpr hb
  have hamem : a ∈ (Finset.range T.n).erase b :=
    Finset.mem_erase.mpr ⟨hab, Finset.mem_range.mpr ha⟩
  rw [← Finset.sum_erase_add _ _ hbmem, ← Finset.sum_erase_add _ _ hamem,
      ← Finset.sum_erase_add (Finset.range T.n)
        (fun k => bz2 (T.xs i k) * bz2 (T.zs j k) + bz2 (T.xs j k) * bz2 (T.zs i k)) hbmem,
      ← Finset.sum_erase_add ((Finset.range T.n).erase b)
        (fun k => bz2 (T.xs i k) * bz2 (T.zs j k) + bz2 (T.xs j k) * bz2 (T.zs i k)) hamem]
  have hee : ∑ k in ((Finset.range T.n).erase b).erase a,
      (bz2 ((tabCNOT T a b).xs i k) * bz2 ((tabCNOT T a b).zs j k)
        + bz2 ((tabCNOT T a b).xs j k) * bz2 ((tabCNOT T a b).zs i k))
      = ∑ k in ((Finset.range T.n).erase b).erase a,
      (bz2 (T.xs i k) * bz2 (T.zs j k) + bz2 (T.xs j k) * bz2 (T.zs i k)) := by
    apply Finset.sum_congr rfl
    intro k hk
    have hka : k ≠ a := (Finset.mem_erase.mp hk).1
    have hkb : k ≠ b := (Finset.mem_erase.mp (Finset.mem_erase.mp hk).2).1
    simp [tabCNOT, hka, hkb]
  rw [hee]
  have hcross : ∀ (xia zia xib zib xja zja xjb zjb : Bool),
      ((bz2 xia * bz2 (zja ^^ zjb) + bz2 xja * bz2 (zia ^^ zib)) +
        (bz2 (xib ^^ xia) * bz2 zjb + bz2 (xjb ^^ xja) * bz2 zib))
      = ((bz2 xia * bz2 zja + bz2 xja * bz2 zia) +
        (bz2 xib * bz2 zjb + bz2 xjb * bz2 zib)) := by decide
  have h1 : (tabCNOT T a b).xs i a = T.xs i a := by simp [tabCNOT, hab]
  have h2 : (tabCNOT T a b).xs j a = T.xs j a := by simp [tabCNOT, hab]
  have h3 : (tabCNOT T a b).zs j a = (T.zs j a ^^ T.zs j b) := by simp [tabCNOT]
  have h4 : (tabCNOT T a b).zs i a = (T.zs i a ^^ T.zs i b) := by simp [tabCNOT]
  have h5 : (tabCNOT T a b).xs i b = (T.xs i b ^^ T.xs i a) := by simp [tabCNOT]
  have h6 : (tabCNOT T a b).xs j b = (T.xs j b ^^ T.xs j a) := by simp [tabCNOT]
  have hba : b ≠ a := fun h => hab h.symm
  have h7 : (tabCNOT T a b).zs j b = T.zs j b := by simp [tabCNOT, hba]
  have h8 : (tabCNOT T a b).zs i b = T.zs i b := by simp [tabCNOT, hba]
  rw [h1, h2, h3, h4, h5, h6, h7, h8]
  linear_combination hcross (T.xs i a) (T.zs i a) (T.xs i b) (T.zs i b)
    (T.xs j a) (T.zs j a) (T.xs j b) (T.zs j b)

theorem sp_tabCZ (T : CliffordTableau) (a b i j : Nat)
    (ha : a < T.n) (hb : b < T.n) (hab : a ≠ b) :
    sp (tabCZ T a b) i j = sp T i j := by
  unfold tabCZ
  rw [sp_tabH, sp_tabCNOT (tabH T b) a b i j ha hb hab, sp_tabH]

theorem napplyGate (T : CliffordTableau) (g : GateOp) : (applyGate T g).n = T.n := by
  cases g <;> rfl

theorem sp_applyGate (T : CliffordTableau) (g : GateOp) (hg : g.valid T.n)
    (i j : Nat) : sp (applyGate T g) i j = sp T i j := by
  cases g with
  | gX q => exact sp_tabX T q i j
  | gY q => exact sp_tabY T q i j
  | gZ q => exact sp_tabZ T q i j
  | gH q => exact sp_tabH T q i j
  | gS q => exact sp_tabS T q i j
  | gCNOT a b => exact sp_tabCNOT T a b i j hg.1 hg.2.1 hg.2.2
  | gCZ a b => exact sp_tabCZ T a b i j hg.1 hg.2.1 hg.2.2

theorem sp_applyGates (L : List GateOp) :
    ∀ (T : CliffordTableau), (∀ g ∈ L, g.valid T.n) →
      ∀ i j, sp (applyGates T L) i j = sp T i j := by
  induction L with
  | nil => intro T _ i j; rfl
  | cons g L ih =>
      intro T hL i j
      have h1 : applyGates T (g :: L) = applyGates (applyGate T g) L := rfl
      rw [h1, ih (applyGate T g)
        (fun g2 hg2 => by rw [napplyGate]; exact hL g2 (List.mem_cons_of_mem g hg2)),
        sp_applyGate T g (hL g (List.mem_cons_self g L))]

/-- Two stabilizer rows of the fresh tableau have symplectic product 0
(their x-parts are empty). -/
theorem sp_init_stab (n s i j : Nat) (hi : n ≤ i) (hj : n ≤ j) :
    sp (tabInit n s) i j = 0 := by
  unfold sp
  apply Finset.sum_eq_zero
  intro k _
  have hi2 : ¬i < n := by omega
  have hj2 : ¬j < n := by omega
  simp [tabInit, hi2, hj2, bz2]

/-- Two destabilizer rows of the fresh tableau have symplectic product 0
(their z-parts are empty). -/
theorem sp_init_destab (n s i j : Nat) (hi : i < n) (hj : j < n) :
    sp (tabInit n s) i j = 0 := by
  unfold sp
  apply Finset.sum_eq_zero
  intro k _
  have hi2 : ¬i = n + k := by omega
  have hj2 : ¬j = n + k := by omega
  simp [tabInit, hi2, hj2, bz2]

/-- Destabilizer row i against stabilizer row n+j of the fresh tableau:
symplectic product 1 exactly when i = j. -/
theorem sp_init_pair (n s i j : Nat) (hi : i < n) (hj : j < n) :
    sp (tabInit n s) i (n + j) = if i = j then 1 else 0 := by
  unfold sp
  have hn : (tabInit n s).n = n := rfl
  rw [hn]
  have hterm : ∀ k ∈ Finset.range n,
      (bz2 ((tabInit n s).xs i k) * bz2 ((tabInit n s).zs (n + j) k)
        + bz2 ((tabInit n s).xs (n + j) k) * bz2 ((tabInit n s).zs i k))
      = if i = k then (if i = j then (1 : ZMod 2) else 0) else 0 := by
    intro k _
    have h1 : ¬n + j < n := by omega
    have h2 : ¬i = n + k := by omega
    by_cases hik : i = k
    · subst hik
      by_cases hij : i = j
      · subst hij
        simp [tabInit, hi, h1, h2, bz2]
      · have h4 : ¬n + j = n + i := by omega
        simp [tabInit, hi, h1, h2, h4, bz2, hij]
    · simp [tabInit, hik, h2, bz2]
  rw [Finset.sum_congr rfl hterm]
  rw [Finset.sum_ite_eq (Finset.range n) i (fun _ => if i = j then (1 : ZMod 2) else 0)]
  simp [Finset.mem_range.mpr hi]

/-- C5 (counterexample to the claim as stated): at tableau level,
CNOT with equal control and target (allowed by the claim's "any qubit
indices") zeroes both columns and destroys the pairing invariant: on
one qubit from |0>, after CNOT(0,0) the symplectic product of
destabilizer row 0 with its paired stabilizer row 1 is 0, not 1. -/
theorem C5_counterexample :
    sp (applyGates (tabInit 1 0) [GateOp.gCNOT 0 0]) 0 1 ≠ 1 := by decide

/-- C5 (amended): for gate sequences whose two-qubit gates act on two
distinct in-range qubits (and single-qubit gates on in-range qubits),
the symplectic inner product of any two distinct stabilizer rows is 0,
of any two distinct destabilizer rows is 0, and of destabilizer row i
with stabilizer row n+j is 1 exactly when i = j. -/
theorem C5_amended (n s : Nat) (L : List GateOp) (hL : ∀ g ∈ L, g.valid n)
    (i j : Nat) :
    (n ≤ i → i < 2 * n → n ≤ j → j < 2 * n → i ≠ j →
      sp (applyGates (tabInit n s) L) i j = 0) ∧
    (i < n → j < n → i ≠ j →
      sp (applyGates (tabInit n s) L) i j = 0) ∧
    (i < n → j < n →
      sp (applyGates (tabInit n s) L) i (n + j) = if i = j then 1 else 0) := by
  have hpres := sp_applyGates L (tabInit n s) hL
  refine ⟨?_, ?_, ?_⟩
  · intro h1 _ h2 _ _
    rw [hpres i j]
    exact sp_init_stab n s i j h1 h2
  · intro h1 h2 _
    rw [hpres i j]
    exact sp_init_destab n s i j h1 h2
  · intro h1 h2
    rw [hpres i (n + j)]
    exact sp_init_pair n s i j h1 h2

/-- Witness for C5_amended: on two qubits after CNOT(0,1), destabilizer
row 0 and stabilizer row 2 still have symplectic product 1. -/
theorem C5_witness :
    sp (applyGates (tabInit 2 0) [GateOp.gCNOT 0 1]) 0 (2 + 0)
      = if 0 = 0 then (1 : ZMod 2) else 0 :=
  (C5_amended 2 0 [GateOp.gCNOT 0 1] (by decide) 0 0).2.2 (by decide) (by decide)

/-- The tableau H update is an involution on the nose: applying _H
twice at the same column restores xs, zs and rs exactly, for every
tableau (this is the tableau half of the H-squared idempotence
property; the CH-form half concerns amplitudes and is not settled
here). -/
theorem tabH_involutive (T : CliffordTableau) (q : Nat) : tabH (tabH T q) q = T := by
  apply tab_ext
  · rfl
  · intro i
    simp only [tabH]
    cases T.rs i <;> cases T.xs i q <;> cases T.zs i q <;> simp
  · intro i j
    simp only [tabH]
    by_cases hj : j = q <;> simp [hj]
  · intro i j
    simp only [tabH]
    by_cases hj : j = q <;> simp [hj]
